import Mathlib

/-!
Shallow embedding of the AVL tree implementation in `avlTree.go`
(the generic `Interface`-keyed version of package `avlTree`).

Modelling conventions:
* Heap pointers are modelled by an explicit arena: `heap : List Node`,
  a pointer is `Option Nat` (an index into the arena, `none` = Go `nil`).
  Nodes are never removed from the arena, so dangling pointers kept by the
  Go code after a structural delete are represented faithfully.
* Keys are `Int`, using the `Int` instance of the `Interface` from the
  test file: `LessThan` is `<`, `GreaterThan` is `>`, `EqualTo` is `=`.
* `uint8` count and `uint64` size are modelled as `Nat`; the Go code
  guards every increment with an assert, so the only wrap that can occur
  is the `t.size -= 1` in `Delete`, modelled with an explicit mod-2^64
  decrement.
* `log.Fatal` (from `assert` and direct calls), nil-pointer dereference
  and slice index-out-of-range are fatal outcomes, modelled with
  `Except GoErr`.  Loops are given explicit fuel; exhausted fuel
  (`GoErr.fuelOut`) models a diverging loop.
-/

namespace AvlTree

/-- Fatal outcomes of the Go program: `log.Fatal` with a message (used by
`assert` and direct calls), nil-pointer dereference, slice index out of
range, and loop-fuel exhaustion (modelling divergence). -/
inductive GoErr where
  | fatal (msg : String)
  | nilDeref
  | indexRange
  | fuelOut
deriving DecidableEq, Repr

/-- A tree node: occurrence count, balance factor, parent/left/right
pointers and the stored value (Go struct `node`). -/
structure Node where
  count : Nat
  bf : Int
  parent : Option Nat
  left : Option Nat
  right : Option Nat
  value : Int
deriving DecidableEq, Repr

/-- The tree (Go struct `avlTree`) together with the arena of every node
ever allocated (`heap`); `root` and `size` are the struct fields. -/
structure avlTree where
  heap : List Node
  root : Option Nat
  size : Nat
deriving DecidableEq, Repr

def MaxUint64 : Nat := 2 ^ 64 - 1

def MaxUint8 : Nat := 255

/-- Go `assert(condition, msg)`: `log.Fatal` when the condition fails. -/
def goAssert (c : Prop) [Decidable c] (msg : String) : Except GoErr Unit :=
  if c then .ok () else .error (.fatal msg)

/-- Read the node stored at id `i` (`none` when the id is out of range,
which never happens for ids produced by `newNode`). -/
def getN (t : avlTree) (i : Nat) : Option Node :=
  t.heap.get? i

/-- Dereference a node id (always in range for ids created by `newNode`). -/
def derefId (t : avlTree) (i : Nat) : Except GoErr Node :=
  match getN t i with
  | some n => .ok n
  | none => .error .nilDeref

/-- Dereference a possibly-nil pointer. -/
def deref (t : avlTree) (p : Option Nat) : Except GoErr Node :=
  match p with
  | none => .error .nilDeref
  | some i => derefId t i

/-- Overwrite the node stored at id `i`. -/
def setN (t : avlTree) (i : Nat) (n : Node) : avlTree :=
  { t with heap := t.heap.set i n }

/-- Go `New()`: empty tree. -/
def New : avlTree := { heap := [], root := none, size := 0 }

/-- Go `newNode(i)`: allocate a fresh node, returning the updated arena
and the new id. -/
def newNode (t : avlTree) (i : Int) : avlTree × Nat :=
  ({ t with heap := t.heap ++ [{ count := 1, bf := 0, parent := none,
                                 left := none, right := none, value := i }] },
   t.heap.length)

/-- Go `Size()`. -/
def Size (t : avlTree) : Nat := t.size

/-- The loop of Go `searchForClosest`; descends while the key differs and
the matching child pointer is non-nil. -/
def searchForClosestLoop (t : avlTree) (i : Int) : Nat → Nat → Except GoErr Nat
  | 0, _ => .error .fuelOut
  | fuel + 1, nId =>
    match getN t nId with
    | none => .error .nilDeref
    | some n =>
      if ¬(i = n.value) ∧ ((i < n.value ∧ n.left ≠ none) ∨ (i > n.value ∧ n.right ≠ none)) then
        if i < n.value then
          match n.left with
          | some l => searchForClosestLoop t i fuel l
          | none => .error .nilDeref
        else if i > n.value then
          match n.right with
          | some r => searchForClosestLoop t i fuel r
          | none => .error .nilDeref
        else .error (.fatal "invariant")
      else .ok nId

/-- Go `searchForClosest(i)`: nil on the empty tree, otherwise the closest
node reached by ordered descent. -/
def searchForClosest (t : avlTree) (i : Int) : Except GoErr (Option Nat) :=
  match t.root with
  | none => .ok none
  | some r =>
    match searchForClosestLoop t i (t.heap.length + 1) r with
    | .ok n => .ok (some n)
    | .error e => .error e

/-- Go `search(i)`: the node holding the value, or nil. -/
def search (t : avlTree) (i : Int) : Except GoErr (Option Nat) :=
  match searchForClosest t i with
  | .error e => .error e
  | .ok none => .ok none
  | .ok (some nId) =>
    match getN t nId with
    | none => .error .nilDeref
    | some n => if i = n.value then .ok (some nId) else .ok none

/-- Go `Search(i)`: the stored value, or the `SearchError` (modelled as
`none`; `GoErr` is reserved for crashes). -/
def Search (t : avlTree) (i : Int) : Except GoErr (Option Int) :=
  match search t i with
  | .error e => .error e
  | .ok none => .ok none
  | .ok (some nId) =>
    match getN t nId with
    | none => .error .nilDeref
    | some n => .ok (some n.value)

/-- The descending bit scan in Go `getHeight`: find the highest set bit
`i` of `size`, returning `i + 1` (the Go code computes
`log2(2^(i+1))` with exact float arithmetic). -/
def highestBitScan (size : Nat) : Nat → Except GoErr Nat
  | 0 =>
    if (1 <<< 0) &&& size >>> 0 = 1 then .ok 1
    else .error (.fatal "cannot reach here")
  | i + 1 =>
    if ((1 <<< (i + 1)) &&& size) >>> (i + 1) = 1 then .ok (i + 2)
    else highestBitScan size i

/-- Go `getHeight()`: 0 for the empty tree, otherwise one more than the
highest set bit position of `size`, scanning from bit 63 down. -/
def getHeight (t : avlTree) : Except GoErr Nat :=
  if t.size = 0 then .ok 0 else highestBitScan t.size 63

/-- State of the iterator closure returned by Go `Inorder`: the stack
slice `pile` (fixed length), the stack `top` index, and the pointer `n`
captured by the closure. -/
structure InorderSt where
  pile : List (Option Nat)
  top : Nat
  cur : Option Nat
deriving DecidableEq, Repr

/-- Go `Inorder()`: allocate the stack with length `getHeight` and
capture the root pointer. -/
def Inorder (t : avlTree) : Except GoErr InorderSt :=
  match getHeight t with
  | .error e => .error e
  | .ok h => .ok { pile := List.replicate h none, top := 0, cur := t.root }

/-- The loop body of one call of the iterator returned by Go `Inorder`:
returns `some value` for the next in-order element, or `none` for the
"end of tree" error.  Writing `s.pile[s.top]` out of range is the Go
slice panic (`GoErr.indexRange`). -/
def inorderNextLoop (t : avlTree) : Nat → InorderSt → Except GoErr (Option Int × InorderSt)
  | 0, _ => .error .fuelOut
  | fuel + 1, st =>
    if st.top > 0 ∨ st.cur ≠ none then
      match st.cur with
      | some nId =>
        if st.top < st.pile.length then
          match getN t nId with
          | none => .error .nilDeref
          | some n =>
            inorderNextLoop t fuel
              { pile := st.pile.set st.top (some nId), top := st.top + 1, cur := n.left }
        else .error .indexRange
      | none =>
        match st.pile.get? (st.top - 1) with
        | some (some mId) =>
          (match getN t mId with
           | none => .error .nilDeref
           | some m => .ok (some m.value, { st with top := st.top - 1, cur := m.right }))
        | some none => .error .nilDeref
        | none => .error .indexRange
    else .ok (none, st)

/-- One call of the iterator closure returned by Go `Inorder`. -/
def inorderNext (t : avlTree) (st : InorderSt) : Except GoErr (Option Int × InorderSt) :=
  inorderNextLoop t (st.pile.length + 2) st

/-- Call the iterator up to `k` times, collecting values until the
end-of-tree error. -/
def inorderDrain (t : avlTree) : Nat → InorderSt → Except GoErr (List Int)
  | 0, _ => .ok []
  | k + 1, st =>
    match inorderNext t st with
    | .error e => .error e
    | .ok (none, _) => .ok []
    | .ok (some v, st') =>
      match inorderDrain t k st' with
      | .error e => .error e
      | .ok vs => .ok (v :: vs)

/-- Call the iterator exactly `k` times, collecting each call result
(`none` is the end-of-tree error). -/
def iterCalls (t : avlTree) : Nat → InorderSt → Except GoErr (List (Option Int))
  | 0, _ => .ok []
  | k + 1, st =>
    match inorderNext t st with
    | .error e => .error e
    | .ok (v, st') =>
      match iterCalls t k st' with
      | .error e => .error e
      | .ok vs => .ok (v :: vs)

/-- Update one node in place through its id (nil dereference if the id is
not in the arena, which never happens for ids produced by `newNode`). -/
def updN (t : avlTree) (i : Nat) (f : Node → Node) : Except GoErr avlTree :=
  match getN t i with
  | some n => .ok (setN t i (f n))
  | none => .error .nilDeref

/-- Update one node in place through a possibly-nil pointer. -/
def updP (t : avlTree) (p : Option Nat) (f : Node → Node) : Except GoErr avlTree :=
  match p with
  | none => .error .nilDeref
  | some i => updN t i f

/-- Force a possibly-nil pointer, crashing like a Go nil dereference. -/
def forceP (p : Option Nat) : Except GoErr Nat :=
  match p with
  | some i => .ok i
  | none => .error .nilDeref

/-- Go `right_right(X)`: single left rotation; returns the new subtree
root `Z`.  Every field is re-read from the arena at the program point of
the corresponding Go statement. -/
def right_right (t : avlTree) (x : Nat) : Except GoErr (avlTree × Nat) := do
  let xn ← derefId t x
  let zn ← deref t xn.right
  let _ ← goAssert (zn.bf ≠ -1) "right left in right right case"
  let z ← forceP xn.right
  let t ← (do let xn ← derefId t x; updN t z (fun q => { q with parent := xn.parent }))
  let t ← updN t x (fun q => { q with parent := some z })
  let t ← (do let zn ← derefId t z; updN t x (fun q => { q with right := zn.left }))
  let xn ← derefId t x
  let t ← (match xn.right with
           | none => pure t
           | some xr => updN t xr (fun q => { q with parent := some x }))
  let t ← updN t z (fun q => { q with left := some x })
  let zn ← derefId t z
  if zn.bf = 0 then do
    let t ← updN t x (fun q => { q with bf := 1 })
    let t ← updN t z (fun q => { q with bf := -1 })
    pure (t, z)
  else do
    let t ← updN t x (fun q => { q with bf := 0 })
    let t ← updN t z (fun q => { q with bf := 0 })
    pure (t, z)

/-- Go `right_left(X)`: double rotation; returns the new subtree root
`Y`. -/
def right_left (t : avlTree) (x : Nat) : Except GoErr (avlTree × Nat) := do
  let xn ← derefId t x
  let zn ← deref t xn.right
  let _ ← goAssert (zn.bf = -1) "right right in left right case"
  let z ← forceP xn.right
  let y ← forceP zn.left
  let t ← (do let xn ← derefId t x; updN t y (fun q => { q with parent := xn.parent }))
  let t ← updN t z (fun q => { q with parent := some y })
  let t ← updN t x (fun q => { q with parent := some y })
  let t ← (do let yn ← derefId t y; updN t x (fun q => { q with right := yn.left }))
  let xn ← derefId t x
  let t ← (match xn.right with
           | none => pure t
           | some xr => updN t xr (fun q => { q with parent := some x }))
  let t ← (do let yn ← derefId t y; updN t z (fun q => { q with left := yn.right }))
  let zn ← derefId t z
  let t ← (match zn.left with
           | none => pure t
           | some zl => updN t zl (fun q => { q with parent := some z }))
  let t ← updN t y (fun q => { q with left := some x })
  let t ← updN t y (fun q => { q with right := some z })
  let yn ← derefId t y
  if yn.bf = 0 then do
    let t ← updN t x (fun q => { q with bf := 0 })
    let t ← updN t z (fun q => { q with bf := 0 })
    pure (t, y)
  else if yn.bf = -1 then do
    let t ← updN t x (fun q => { q with bf := 0 })
    let t ← updN t z (fun q => { q with bf := 1 })
    let t ← updN t y (fun q => { q with bf := 0 })
    pure (t, y)
  else if yn.bf = 1 then do
    let t ← updN t x (fun q => { q with bf := -1 })
    let t ← updN t z (fun q => { q with bf := 0 })
    let t ← updN t y (fun q => { q with bf := 0 })
    pure (t, y)
  else do
    let _ ← goAssert False "invalid balance factor for Y in right left case"
    pure (t, y)

/-- Go `left_left(X)`: single right rotation; returns the new subtree
root `Z`. -/
def left_left (t : avlTree) (x : Nat) : Except GoErr (avlTree × Nat) := do
  let xn ← derefId t x
  let zn ← deref t xn.left
  let _ ← goAssert (zn.bf ≠ 1) "left right case in left left"
  let z ← forceP xn.left
  let t ← (do let xn ← derefId t x; updN t z (fun q => { q with parent := xn.parent }))
  let t ← updN t x (fun q => { q with parent := some z })
  let t ← (do let zn ← derefId t z; updN t x (fun q => { q with left := zn.right }))
  let xn ← derefId t x
  let t ← (match xn.left with
           | none => pure t
           | some xl => updN t xl (fun q => { q with parent := some x }))
  let t ← updN t z (fun q => { q with right := some x })
  let zn ← derefId t z
  if zn.bf = 0 then do
    let t ← updN t x (fun q => { q with bf := -1 })
    let t ← updN t z (fun q => { q with bf := 1 })
    pure (t, z)
  else do
    let t ← updN t x (fun q => { q with bf := 0 })
    let t ← updN t z (fun q => { q with bf := 0 })
    pure (t, z)

/-- Go `left_right(X)`: double rotation; returns the new subtree root
`Y`. -/
def left_right (t : avlTree) (x : Nat) : Except GoErr (avlTree × Nat) := do
  let xn ← derefId t x
  let zn ← deref t xn.left
  let _ ← goAssert (zn.bf = 1) "left left case in left right"
  let z ← forceP xn.left
  let y ← forceP zn.right
  let t ← (do let xn ← derefId t x; updN t y (fun q => { q with parent := xn.parent }))
  let t ← updN t z (fun q => { q with parent := some y })
  let t ← updN t x (fun q => { q with parent := some y })
  let t ← (do let yn ← derefId t y; updN t x (fun q => { q with left := yn.right }))
  let xn ← derefId t x
  let t ← (match xn.left with
           | none => pure t
           | some xl => updN t xl (fun q => { q with parent := some x }))
  let t ← (do let yn ← derefId t y; updN t z (fun q => { q with right := yn.left }))
  let zn ← derefId t z
  let t ← (match zn.right with
           | none => pure t
           | some zr => updN t zr (fun q => { q with parent := some z }))
  let t ← updN t y (fun q => { q with right := some x })
  let t ← updN t y (fun q => { q with left := some z })
  let yn ← derefId t y
  if yn.bf = 0 then do
    let t ← updN t x (fun q => { q with bf := 0 })
    let t ← updN t z (fun q => { q with bf := 0 })
    pure (t, y)
  else if yn.bf = -1 then do
    let t ← updN t x (fun q => { q with bf := 0 })
    let t ← updN t z (fun q => { q with bf := 1 })
    let t ← updN t y (fun q => { q with bf := 0 })
    pure (t, y)
  else if yn.bf = 1 then do
    let t ← updN t x (fun q => { q with bf := -1 })
    let t ← updN t z (fun q => { q with bf := 0 })
    let t ← updN t y (fun q => { q with bf := 0 })
    pure (t, y)
  else do
    let _ ← goAssert False "unhandled balance factor for Y in left right case"
    pure (t, y)

/-- Go `rebalance(n)`: selects the rotation case from the balance factors
and re-attaches the new subtree root to the old parent by key
comparison. -/
def rebalance (t : avlTree) (nId : Nat) : Except GoErr (avlTree × Nat) := do
  let n ← derefId t nId
  let (t, m) ←
    if n.bf = 2 then do
      let rn ← deref t n.right
      if rn.bf = 0 ∨ rn.bf = 1 then right_right t nId else right_left t nId
    else if n.bf = -2 then do
      let ln ← deref t n.left
      if ln.bf = -1 ∨ ln.bf = 0 then left_left t nId else left_right t nId
    else do
      let _ ← goAssert False "asked to rebalance but bf != 2"
      pure (t, nId)
  let mn ← derefId t m
  match mn.parent with
  | none => pure (t, m)
  | some p => do
    let pn ← derefId t p
    if pn.value < mn.value then do
      let t ← updN t p (fun q => { q with right := some m })
      pure (t, m)
    else if pn.value > mn.value then do
      let t ← updN t p (fun q => { q with left := some m })
      pure (t, m)
    else do
      let _ ← goAssert False "unhandled parent/child case"
      pure (t, m)

/-- The loop of Go `upToRoot(n)`. -/
def upToRootLoop (t : avlTree) : Nat → Nat → Except GoErr Nat
  | 0, _ => .error .fuelOut
  | fuel + 1, nId =>
    match getN t nId with
    | none => .error .nilDeref
    | some n =>
      match n.parent with
      | none => .ok nId
      | some p => upToRootLoop t fuel p

/-- Go `upToRoot(n)`: climb parent pointers to the root. -/
def upToRoot (t : avlTree) (nId : Nat) : Except GoErr Nat :=
  upToRootLoop t (t.heap.length + 1) nId

/-- Go `(p *node).updateBalanceFactorInsert(c)`: adjust the balance
factor of parent `p` for freshly grown child `c`. -/
def updateBalanceFactorInsert (t : avlTree) (pId : Option Nat) (cId : Nat) :
    Except GoErr avlTree := do
  let _ ← goAssert (pId ≠ none) "parent is nil"
  let pn ← deref t pId
  let p ← forceP pId
  let t ←
    if pn.left = some cId then pure (setN t p { pn with bf := pn.bf - 1 })
    else if pn.right = some cId then pure (setN t p { pn with bf := pn.bf + 1 })
    else do
      let _ ← goAssert (pn.left = none ∧ pn.right = none) "unhandled parent/child relationship"
      pure t
  let pn ← derefId t p
  let _ ← goAssert (pn.bf < 3 ∧ pn.bf > -3) "balance factor invariant"
  pure t

/-- The loop of Go `retraceInsert`: each iteration moves `p` to its
parent, updates that balance factor, rebalances on reaching a balance
factor of two, and stops at the root or at a balance factor of zero. -/
def retraceInsertLoop : Nat → avlTree → Nat → Nat → Except GoErr (avlTree × Nat)
  | 0, _, _, _ => .error .fuelOut
  | fuel + 1, t, cId, pId => do
    let pn ← derefId t pId
    let pp := pn.parent
    let t ← updateBalanceFactorInsert t pp cId
    let p ← forceP pp
    let pn ← derefId t p
    let (t, p) ← if pn.bf = 2 ∨ pn.bf = -2 then rebalance t p else pure (t, p)
    let pn ← derefId t p
    match pn.parent with
    | none => pure (t, p)
    | some _ =>
      if pn.bf = 0 then pure (t, p)
      else retraceInsertLoop fuel t p p

/-- Go `retraceInsert(c)`: retrace upward from the new node, then climb
to the true root. -/
def retraceInsert (t : avlTree) (cId : Nat) : Except GoErr (avlTree × Nat) := do
  let (t, p) ← retraceInsertLoop (t.heap.length + 2) t cId cId
  let r ← upToRoot t p
  pure (t, r)

/-- The new-node branch of Go `Insert`: attach a fresh node below the
closest node `n`, retrace, update the root pointer when retracing
returned a parentless node, and bump `size`. -/
def insertAttach (t : avlTree) (i : Int) (nId : Nat) : Except GoErr avlTree := do
  let (t, c) := newNode t i
  let n ← derefId t nId
  let t ←
    if i < n.value ∧ n.left = none then pure (setN t nId { n with left := some c })
    else if i > n.value ∧ n.right = none then pure (setN t nId { n with right := some c })
    else .error (.fatal "invariant")
  let t ← updN t c (fun q => { q with parent := some nId })
  let (t, m) ← retraceInsert t c
  let mn ← derefId t m
  let t := if mn.parent = none then { t with root := some m } else t
  pure { t with size := t.size + 1 }

/-- Go `Insert(i)`. -/
def Insert (t : avlTree) (i : Int) : Except GoErr avlTree :=
  if t.size < MaxUint64 then
    match t.root with
    | none =>
      if t.size = 0 then
        .ok { heap := (newNode t i).1.heap, root := some (newNode t i).2, size := t.size + 1 }
      else .error (.fatal "wrong size")
    | some _ =>
      match searchForClosest t i with
      | .error e => .error e
      | .ok none => .error .nilDeref
      | .ok (some nId) =>
        match getN t nId with
        | none => .error .nilDeref
        | some n =>
          if i = n.value then
            if n.count < MaxUint8 then .ok (setN t nId { n with count := n.count + 1 })
            else .error (.fatal "too many inserts of value")
          else insertAttach t i nId
  else .error (.fatal "too many nodes in tree")

/-- Go `replaceNode(c, p, x)`: replace child `c` of `p` by `x`. -/
def replaceNode (t : avlTree) (cId : Nat) (pId xId : Option Nat) : Except GoErr avlTree := do
  let t ← (match xId with
           | some x => updN t x (fun q => { q with parent := pId })
           | none => pure t)
  match pId with
  | none => pure t
  | some p => do
    let pn ← derefId t p
    if pn.left = some cId then pure (setN t p { pn with left := xId })
    else if pn.right = some cId then pure (setN t p { pn with right := xId })
    else .error (.fatal "unhandled parent/child case")

/-- The loop of Go `retraceRemove(n)`: rebalance at a balance factor of
two, stop at a balance factor of one or at the root, otherwise adjust the
parent balance factor by key comparison and climb. -/
def retraceRemoveLoop : Nat → avlTree → Nat → Except GoErr (avlTree × Nat)
  | 0, _, _ => .error .fuelOut
  | fuel + 1, t, nId =>
    match getN t nId with
    | none => .error .nilDeref
    | some n0 =>
      match (if n0.bf = 2 ∨ n0.bf = -2 then rebalance t nId else .ok (t, nId)) with
      | .error e => .error e
      | .ok (t1, n1) =>
        match getN t1 n1 with
        | none => .error .nilDeref
        | some n =>
          if n.bf < 2 ∧ n.bf > -2 then
            if n.bf = 1 ∨ n.bf = -1 then .ok (t1, n1)
            else
              match n.parent with
              | none => .ok (t1, n1)
              | some p =>
                match getN t1 p with
                | none => .error .nilDeref
                | some pn =>
                  if pn.value < n.value then
                    if pn.bf - 1 < 3 ∧ pn.bf - 1 > -3 then
                      retraceRemoveLoop fuel (setN t1 p { pn with bf := pn.bf - 1 }) p
                    else .error (.fatal "balance factor invariant")
                  else if pn.value > n.value then
                    if pn.bf + 1 < 3 ∧ pn.bf + 1 > -3 then
                      retraceRemoveLoop fuel (setN t1 p { pn with bf := pn.bf + 1 }) p
                    else .error (.fatal "balance factor invariant")
                  else .error (.fatal "unhandled parent/child relationship")
          else .error (.fatal "node balance factor out of range after rebalance")

/-- Go `retraceRemove(n)`: run the loop, then climb to the true root. -/
def retraceRemove (t : avlTree) (nId : Nat) : Except GoErr (avlTree × Nat) := do
  let (t, m) ← retraceRemoveLoop (t.heap.length + 2) t nId
  let r ← upToRoot t m
  pure (t, r)

/-- Go `removeNoChildren(n)`. -/
def removeNoChildren (t : avlTree) (nId : Nat) : Except GoErr (avlTree × Option Nat) := do
  let n ← derefId t nId
  match n.parent with
  | none => pure (t, none)
  | some p => do
    let pn ← derefId t p
    let t := if pn.right = some nId then setN t p { pn with bf := pn.bf - 1 }
             else setN t p { pn with bf := pn.bf + 1 }
    let t ← replaceNode t nId (some p) none
    let (t, r) ← retraceRemove t p
    pure (t, some r)

/-- Go `removeNoRightChildren(n)`. -/
def removeNoRightChildren (t : avlTree) (nId : Nat) : Except GoErr (avlTree × Option Nat) := do
  let n ← derefId t nId
  let p := n.parent
  let x := n.left
  let t ← replaceNode t nId p x
  let cond ← (match p with
              | none => do let xn ← deref t x; pure (xn.parent == none)
              | some _ => pure false)
  if cond then pure (t, x)
  else do
    let xi ← forceP x
    let (t, r) ← retraceRemove t xi
    pure (t, some r)

/-- Go `removeRightNoLeft(n)`. -/
def removeRightNoLeft (t : avlTree) (nId : Nat) : Except GoErr (avlTree × Option Nat) := do
  let n ← derefId t nId
  let p := n.parent
  let xi ← forceP n.right
  let t ← (do let n ← derefId t nId; updN t xi (fun q => { q with left := n.left }))
  let t ← (do let n ← derefId t nId; updN t xi (fun q => { q with bf := n.bf - 1 }))
  let t ← replaceNode t nId p (some xi)
  let cond ← (match p with
              | none => do let xn ← derefId t xi; pure (xn.parent == none)
              | some _ => pure false)
  if cond then pure (t, some xi)
  else do
    let (t, r) ← retraceRemove t xi
    pure (t, some r)

/-- The successor-descent loop in Go `removeComplex`. -/
def removeComplexLoop (t : avlTree) : Nat → Nat → Except GoErr Nat
  | 0, _ => .error .fuelOut
  | fuel + 1, c =>
    match getN t c with
    | none => .error .nilDeref
    | some cn =>
      match cn.left with
      | none => .ok c
      | some l => removeComplexLoop t fuel l

/-- Go `removeComplex(n)`: remove a node whose right child has a left
subtree, splicing the in-order successor into its place. -/
def removeComplex (t : avlTree) (nId : Nat) : Except GoErr (avlTree × Option Nat) := do
  let n ← derefId t nId
  let c0 ← forceP n.right
  let c ← removeComplexLoop t (t.heap.length + 2) c0
  let cn ← derefId t c
  let t ← (match cn.right with
           | some cr => updP t cn.parent (fun q => { q with left := some cr })
           | none => updP t cn.parent (fun q => { q with left := none }))
  let cn ← derefId t c
  let p := cn.parent
  let t ← updP t p (fun q => { q with bf := q.bf + 1 })
  let t ← (do let n ← derefId t nId; updN t c (fun q => { q with bf := n.bf }))
  let t ← (do let n ← derefId t nId; replaceNode t nId n.parent (some c))
  let t ← (do let n ← derefId t nId; updP t n.left (fun q => { q with parent := some c }))
  let t ← (do let n ← derefId t nId; updN t c (fun q => { q with left := n.left }))
  let t ← (do let n ← derefId t nId; updP t n.right (fun q => { q with parent := some c }))
  let t ← (do let n ← derefId t nId; updN t c (fun q => { q with right := n.right }))
  let cond ← (match p with
              | none => do let cn ← derefId t c; pure (cn.parent == none)
              | some _ => pure false)
  if cond then pure (t, some c)
  else do
    let pi ← forceP p
    let (t, r) ← retraceRemove t pi
    pure (t, some r)

/-- The `uint64` wrap-around decrement `t.size -= 1` in Go `Delete`. -/
def sizeDec (s : Nat) : Nat := if s = 0 then MaxUint64 else s - 1

/-- Go `Delete(i)`: returns whether a key or occurrence was removed,
together with the updated tree. -/
def Delete (t : avlTree) (i : Int) : Except GoErr (Bool × avlTree) := do
  match t.root with
  | none => pure (false, t)
  | some r => do
    let rn ← derefId t r
    if i = rn.value ∧ rn.left = none ∧ rn.right = none ∧ rn.count = 1 then do
      let _ ← goAssert (Size t = 1) "root deletion, but size wrong"
      pure (true, { t with root := none, size := 0 })
    else do
      match ← search t i with
      | none => pure (false, t)
      | some nId => do
        let n ← derefId t nId
        if n.count > 1 then pure (true, setN t nId { n with count := n.count - 1 })
        else do
          let (t, r) ←
            if n.right = none ∧ n.left = none then removeNoChildren t nId
            else if n.right = none then removeNoRightChildren t nId
            else do
              -- the last two Go cases branch on n.right.left; the final
              -- assert(false, "unhandled node removal") is unreachable
              let rn ← deref t n.right
              if rn.left = none then removeRightNoLeft t nId
              else removeComplex t nId
          match r with
          | none => pure (true, { t with root := none, size := sizeDec t.size })
          | some rId => do
            let rn ← derefId t rId
            let _ ← goAssert (rn.parent = none) "root parent not nil"
            pure (true, { t with root := some rId, size := sizeDec t.size })

/-- A public-API call: `Insert` or `Delete` with an integer key. -/
inductive Op where
  | ins (i : Int)
  | del (i : Int)
deriving DecidableEq, Repr

/-- Run one public-API call. -/
def runOp (t : avlTree) : Op → Except GoErr avlTree
  | .ins i => Insert t i
  | .del i =>
    match Delete t i with
    | .error e => .error e
    | .ok (_, t') => .ok t'

/-- Run a list of public-API calls from the given tree. -/
def runOpsFrom (t : avlTree) : List Op → Except GoErr avlTree
  | [] => .ok t
  | op :: ops =>
    match runOp t op with
    | .error e => .error e
    | .ok t' => runOpsFrom t' ops

/-- Run a list of public-API calls starting from `New()`. -/
def runOps (l : List Op) : Except GoErr avlTree := runOpsFrom New l

/-!
Specification-side view of the pointer structure: the tree reachable from
a pointer, extracted as an inductive tree, plus the checkers needed to
state the claims (actual heights, key order, balance factors, parent and
child link consistency).
-/

/-- The reachable tree extracted from the arena: node id, value, stored
balance factor, stored count, and the two subtrees. -/
inductive BT where
  | nil : BT
  | nd (id : Nat) (value : Int) (bf : Int) (count : Nat) (l r : BT) : BT
deriving DecidableEq, Repr

/-- Extract the tree reachable from pointer `p` (fuel-bounded; `none` on
a dangling id or when the fuel runs out, which cannot happen for an
acyclic structure with fuel above the longest path). -/
def toBT (t : avlTree) : Nat → Option Nat → Option BT
  | 0, _ => none
  | _ + 1, none => some .nil
  | fuel + 1, some i =>
    match getN t i with
    | none => none
    | some n =>
      match toBT t fuel n.left, toBT t fuel n.right with
      | some l, some r => some (.nd i n.value n.bf n.count l r)
      | _, _ => none

/-- Actual height of a view tree (a single node has height 1). -/
def heightBT : BT → Nat
  | .nil => 0
  | .nd _ _ _ _ l r => 1 + max (heightBT l) (heightBT r)

/-- In-order key sequence of a view tree. -/
def keysBT : BT → List Int
  | .nil => []
  | .nd _ v _ _ l r => keysBT l ++ v :: keysBT r

/-- Whether a key list is strictly ascending. -/
def strictAsc : List Int → Bool
  | [] => true
  | [_] => true
  | a :: b :: rest => a < b && strictAsc (b :: rest)

/-- Whether every stored balance factor lies in `{-1,0,1}` and equals the
actual right-subtree height minus left-subtree height. -/
def bfMatches : BT → Bool
  | .nil => true
  | .nd _ _ bf _ l r =>
    (bf == (heightBT r : Int) - (heightBT l : Int) && -1 ≤ bf && bf ≤ 1)
      && bfMatches l && bfMatches r

/-- The claim predicate for one non-root node: `n.parent.left == n` or
`n.parent.right == n`. -/
def nodeBackLink (t : avlTree) (id : Nat) : Bool :=
  match getN t id with
  | none => false
  | some n =>
    match n.parent with
    | none => false
    | some p =>
      match getN t p with
      | none => false
      | some pn => pn.left == some id || pn.right == some id

/-- Parent/child consistency over the reachable tree as the claim states
it: the root has a nil parent and every non-root node is a child of the
node its parent pointer names. -/
def parentChildClaim (t : avlTree) (isRoot : Bool) : BT → Bool
  | .nil => true
  | .nd id _ _ _ l r =>
    (if isRoot then
       (match getN t id with
        | some n => n.parent == none
        | none => false)
     else nodeBackLink t id)
      && parentChildClaim t false l && parentChildClaim t false r

/-- Key membership in a view tree. -/
def memBT (k : Int) : BT → Bool
  | .nil => false
  | .nd _ v _ _ l r => k == v || memBT k l || memBT k r

/-- All keys of the view tree are below `v`. -/
def allLtBT (v : Int) : BT → Bool
  | .nil => true
  | .nd _ w _ _ l r => w < v && allLtBT v l && allLtBT v r

/-- All keys of the view tree are above `v`. -/
def allGtBT (v : Int) : BT → Bool
  | .nil => true
  | .nd _ w _ _ l r => v < w && allGtBT v l && allGtBT v r

/-- Binary-search-tree ordering of a view tree. -/
def bstOkBT : BT → Bool
  | .nil => true
  | .nd _ v _ _ l r => allLtBT v l && allGtBT v r && bstOkBT l && bstOkBT r

/-- Every node of the view tree holding key `k` has an occurrence count
below its `uint8` maximum. -/
def countOkBT (k : Int) : BT → Bool
  | .nil => true
  | .nd _ v _ c l r => (!(v == k) || decide (c < MaxUint8)) && countOkBT k l && countOkBT k r

/-- The view tree contains a node with id `id`, value `v` and count `c`. -/
def hasNodeVC (id : Nat) (v : Int) (c : Nat) : BT → Bool
  | .nil => false
  | .nd j w _ cj l r => (j == id && w == v && cj == c) || hasNodeVC id v c l || hasNodeVC id v c r

/-- Project the tree out of a non-crashing run (`New` on a crash). -/
def treeOf (r : Except GoErr avlTree) : avlTree :=
  match r with
  | .ok t => t
  | .error _ => New

/-- The reachable view of a tree (`.nil` when extraction fails). -/
def viewOf (t : avlTree) : BT :=
  (toBT t (t.heap.length + 1) t.root).getD .nil

set_option maxRecDepth 4000

/-!
Decidable equality for run results, plus the concrete runs and reachable
views used to settle the claims.
-/

deriving instance DecidableEq for Except

/-- Run `Inorder` and drain up to `k` elements from the iterator. -/
def inorderRun (t : avlTree) (k : Nat) : Except GoErr (List Int) :=
  match Inorder t with
  | .error e => .error e
  | .ok st => inorderDrain t k st

/-- Claim C1 run: insert 2, 1, 3, then delete 2 and delete 1. -/
def c1seq : List Op := [.ins 2, .ins 1, .ins 3, .del 2, .del 1]

def c1tree : avlTree := treeOf (runOps c1seq)

/-- Claim C2 run: build an eight-node tree, then delete the root 20,
which takes the `removeComplex` path with a successor (25) that has a
right child (27). -/
def c2seq : List Op :=
  [.ins 20, .ins 10, .ins 30, .ins 5, .ins 15, .ins 25, .ins 35, .ins 27, .del 20]

def c2tree : avlTree := treeOf (runOps c2seq)

/-- Claim C3 build: a tree where deleting the leaf 1 makes the
delete-retrace pass a node with balance factor 0 that is a left child. -/
def c3preseq : List Op := [.ins 4, .ins 2, .ins 5, .ins 1]

/-- The root node of the tree built by `c3preseq`, at the moment
`retraceRemove` starts during `Delete 1`. -/
def c3root : Node :=
  { count := 1, bf := -1, parent := none, left := some 1, right := some 2, value := 4 }

/-- The state `Delete 1` passes to `retraceRemove` on the tree built by
`c3preseq`: node 1 (key 2) has just lost its left child and had its
balance factor adjusted to 0. -/
def c3mid : avlTree :=
  { heap := [c3root,
             { count := 1, bf := 0, parent := some 0, left := none, right := none, value := 2 },
             { count := 1, bf := 0, parent := some 0, left := none, right := none, value := 5 },
             { count := 1, bf := 0, parent := some 1, left := none, right := none, value := 1 }],
    root := some 0, size := 4 }

/-- Claim C4 run: seven inserts building a minimal (Fibonacci-shaped)
AVL tree of height 4 whose `getHeight` estimate is only 3. -/
def c4seq : List Op := [.ins 10, .ins 5, .ins 15, .ins 3, .ins 7, .ins 13, .ins 2]

def c4tree : avlTree := treeOf (runOps c4seq)

/-- Claim C5 run: the C2 run followed by `Delete 27`. -/
def c5seq : List Op :=
  [.ins 20, .ins 10, .ins 30, .ins 5, .ins 15, .ins 25, .ins 35, .ins 27, .del 20, .del 27]

/-- Claim C6 run: after it, key 2 sits at the root with a polluted right
subtree, so `Delete 2` crashes. -/
def c6seq : List Op := [.ins 2, .ins 1, .ins 3, .del 2, .del 1]

def c6tree : avlTree := treeOf (runOps c6seq)

/-- Claim C7 run: the C2 scenario; inserting 26 afterwards retraces
through the stale parent pointer of node 27. -/
def c7seq : List Op :=
  [.ins 20, .ins 10, .ins 30, .ins 5, .ins 15, .ins 25, .ins 35, .ins 27, .del 20]

def c7tree : avlTree := treeOf (runOps c7seq)

/-- Claim C8 witness tree: insert 2, 1, 3. -/
def c8t : avlTree := treeOf (runOps [.ins 2, .ins 1, .ins 3])

/-- The reachable view of `c8t`. -/
def c8bt : BT :=
  .nd 0 2 0 1 (.nd 1 1 0 1 .nil .nil) (.nd 2 3 0 1 .nil .nil)

/-- Claim C9 run: eighteen distinct keys inserted in an order that
exploits the swapped balance-factor table of `left_right`, leaving the
tree with actual height 8. -/
def c9seq : List Op :=
  [.ins 13, .ins 2, .ins 12, .ins 14, .ins 16, .ins 18, .ins 3, .ins 15, .ins 11,
   .ins 9, .ins 17, .ins 10, .ins 4, .ins 6, .ins 5, .ins 7, .ins 1, .ins 8]

def c9tree : avlTree := treeOf (runOps c9seq)

/-!
Helper lemmas for the frame property of inserting an existing key.
-/

theorem allGtBT_mem {v k : Int} :
    ∀ bt : BT, allGtBT v bt = true → memBT k bt = true → v < k := by
  intro bt
  induction bt with
  | nil => intro _ hm; simp [memBT] at hm
  | nd j w bf c l r ihl ihr =>
    intro ha hm
    simp only [allGtBT, Bool.and_eq_true, decide_eq_true_eq] at ha
    simp only [memBT, Bool.or_eq_true, beq_iff_eq] at hm
    rcases hm with (hm | hm) | hm
    · exact hm ▸ ha.1.1
    · exact ihl ha.1.2 hm
    · exact ihr ha.2 hm

theorem allLtBT_mem {v k : Int} :
    ∀ bt : BT, allLtBT v bt = true → memBT k bt = true → k < v := by
  intro bt
  induction bt with
  | nil => intro _ hm; simp [memBT] at hm
  | nd j w bf c l r ihl ihr =>
    intro ha hm
    simp only [allLtBT, Bool.and_eq_true, decide_eq_true_eq] at ha
    simp only [memBT, Bool.or_eq_true, beq_iff_eq] at hm
    rcases hm with (hm | hm) | hm
    · exact hm ▸ ha.1.1
    · exact ihl ha.1.2 hm
    · exact ihr ha.2 hm

theorem countOk_hasNode (k : Int) (id : Nat) (c : Nat) :
    ∀ bt : BT, countOkBT k bt = true → hasNodeVC id k c bt = true → c < MaxUint8 := by
  intro bt
  induction bt with
  | nil => intro _ hh; simp [hasNodeVC] at hh
  | nd j w bf cj l r ihl ihr =>
    intro hc hh
    simp only [countOkBT, Bool.and_eq_true] at hc
    simp only [hasNodeVC, Bool.or_eq_true, Bool.and_eq_true, beq_iff_eq] at hh
    rcases hh with (⟨⟨hj, hw⟩, hcj⟩ | hh) | hh
    · have h1 := hc.1.1
      rw [hw] at h1
      simp only [beq_self_eq_true, Bool.not_true, Bool.false_or, decide_eq_true_eq] at h1
      exact hcj ▸ h1
    · exact ihl hc.1.2 hh
    · exact ihr hc.2 hh

theorem searchLoop_finds (t : avlTree) (k : Int) :
    ∀ (f : Nat) (i : Nat) (bt : BT),
      toBT t f (some i) = some bt →
      bstOkBT bt = true →
      memBT k bt = true →
      ∃ id nd, searchForClosestLoop t k f i = .ok id ∧
        getN t id = some nd ∧ nd.value = k ∧ hasNodeVC id k nd.count bt = true := by
  intro f
  induction f with
  | zero => intro i bt h; simp [toBT] at h
  | succ f ih =>
    intro i bt hview hbst hmem
    cases hg : getN t i with
    | none => simp [toBT, hg] at hview
    | some n =>
      simp only [toBT, hg] at hview
      cases hL : toBT t f n.left with
      | none => simp [hL] at hview
      | some l =>
        cases hR : toBT t f n.right with
        | none => simp [hL, hR] at hview
        | some r =>
          simp only [hL, hR, Option.some.injEq] at hview
          subst hview
          simp only [bstOkBT, Bool.and_eq_true] at hbst
          by_cases hkv : k = n.value
          · refine ⟨i, n, ?_, hg, hkv.symm, ?_⟩
            · simp only [searchForClosestLoop, hg]
              rw [if_neg (by simp [hkv])]
            · simp [hasNodeVC, hkv]
          · simp only [memBT, Bool.or_eq_true, beq_iff_eq] at hmem
            rcases hmem with (hmem | hmem) | hmem
            · exact absurd hmem hkv
            · have hklt : k < n.value := allLtBT_mem l hbst.1.1.1 hmem
              cases hnl : n.left with
              | none =>
                rw [hnl] at hL
                cases f with
                | zero => simp [toBT] at hL
                | succ f' =>
                  simp only [toBT, Option.some.injEq] at hL
                  subst hL
                  simp [memBT] at hmem
              | some li =>
                rw [hnl] at hL
                obtain ⟨id, nd, hloop, hgid, hvid, hhas⟩ := ih li l hL hbst.1.2 hmem
                refine ⟨id, nd, ?_, hgid, hvid, ?_⟩
                · simp only [searchForClosestLoop, hg]
                  rw [if_pos ⟨hkv, Or.inl ⟨hklt, by simp [hnl]⟩⟩, if_pos hklt]
                  simp only [hnl]
                  exact hloop
                · simp only [hasNodeVC, Bool.or_eq_true]
                  exact Or.inl (Or.inr hhas)
            · have hkgt : n.value < k := allGtBT_mem r hbst.1.1.2 hmem
              cases hnr : n.right with
              | none =>
                rw [hnr] at hR
                cases f with
                | zero => simp [toBT] at hR
                | succ f' =>
                  simp only [toBT, Option.some.injEq] at hR
                  subst hR
                  simp [memBT] at hmem
              | some ri =>
                rw [hnr] at hR
                obtain ⟨id, nd, hloop, hgid, hvid, hhas⟩ := ih ri r hR hbst.2 hmem
                refine ⟨id, nd, ?_, hgid, hvid, ?_⟩
                · simp only [searchForClosestLoop, hg]
                  rw [if_pos ⟨hkv, Or.inr ⟨hkgt, by simp [hnr]⟩⟩, if_neg (by omega),
                      if_pos hkgt]
                  simp only [hnr]
                  exact hloop
                · simp only [hasNodeVC, Bool.or_eq_true]
                  exact Or.inr hhas

/-!
The claims.
-/

/-- Claim C1: the spec asserts that after any sequence of `Insert` and
`Delete` calls, the balance factor of every node lies in `{-1,0,1}` and equals
the actual right-minus-left subtree height, and an in-order walk is
strictly ascending.  The run `c1seq` (three inserts and two deletes)
refutes this: `removeRightNoLeft` splices `n.left` under the replacement
without updating its parent pointer, after which the second delete
resurrects the detached old root; in the final tree the stored balance
factors disagree with the actual heights and the in-order key sequence
is 2, 1, 3. -/
theorem C1_invariants_broken :
    (runOps c1seq).isOk = true ∧
    bfMatches (viewOf c1tree) = false ∧
    strictAsc (keysBT (viewOf c1tree)) = false := by decide

/-- Claim C2: the spec asserts parent/child consistency (every non-root
node is a child of the node its parent pointer names, and the parent of
the root is nil), in particular across the `removeComplex` re-homing of
the right child of the successor.  The run `c2seq` refutes this: deleting 20
re-homes node 27 (id 7) into the left slot of node 30 but leaves
`27.parent = 25` (id 5), whose children are ids 1 and 2. -/
theorem C2_parent_child_broken :
    (runOps c2seq).isOk = true ∧
    memBT 27 (viewOf c2tree) = true ∧
    (getN c2tree 7).map Node.parent = some (some 5) ∧
    (getN c2tree 5).map Node.left = some (some 1) ∧
    (getN c2tree 5).map Node.right = some (some 2) ∧
    parentChildClaim c2tree true (viewOf c2tree) = false := by decide

/-- Claim C3, counterexample: the claim states that in delete-retrace a
node `n` with balance factor 0 and a parent has the balance factor of
the parent decremented when `n` is the left child.  In the state `c3mid`
(reached inside `Delete 1` on the tree built by `c3preseq`), node 1 has
balance factor 0 and is the left child of node 0 whose balance factor is
-1; the loop continues with the balance factor of node 0 incremented to 0,
and continuing with the decrement the claim prescribes produces a
different result. -/
theorem C3_counterexample :
    (runOps c3preseq).isOk = true ∧
    getN c3mid 1 =
      some { count := 1, bf := 0, parent := some 0, left := none, right := none, value := 2 } ∧
    c3root.left = some 1 ∧ c3root.bf = -1 ∧ getN c3mid 0 = some c3root ∧
    retraceRemoveLoop (c3mid.heap.length + 2) c3mid 1 =
      retraceRemoveLoop (c3mid.heap.length + 1) (setN c3mid 0 { c3root with bf := c3root.bf + 1 }) 0 ∧
    retraceRemoveLoop (c3mid.heap.length + 2) c3mid 1 ≠
      retraceRemoveLoop (c3mid.heap.length + 1) (setN c3mid 0 { c3root with bf := c3root.bf - 1 }) 0 ∧
    (getN (treeOf (runOps (c3preseq ++ [.del 1]))) 0).map Node.bf = some 0 := by decide

/-- Claim C3, amended: in delete-retrace, when the current node `n` has
balance factor 0 after any rebalance and has a parent, the balance
factor of the parent is adjusted the opposite way from the stated rule:
incremented when `n` is the left child of the parent and decremented when `n`
is the right child (the code selects the side by key comparison), before
continuing upward with the parent. -/
theorem C3_retrace_adjust_step (fuel : Nat) (t : avlTree) (nId pId : Nat) (n p : Node)
    (hn : getN t nId = some n) (hbf : n.bf = 0)
    (hpar : n.parent = some pId) (hp : getN t pId = some p)
    (hlo : -1 ≤ p.bf) (hhi : p.bf ≤ 1) :
    (p.left = some nId → n.value < p.value →
      retraceRemoveLoop (fuel + 1) t nId =
        retraceRemoveLoop fuel (setN t pId { p with bf := p.bf + 1 }) pId) ∧
    (p.right = some nId → p.value < n.value →
      retraceRemoveLoop (fuel + 1) t nId =
        retraceRemoveLoop fuel (setN t pId { p with bf := p.bf - 1 }) pId) := by
  constructor
  · intro _ hvl
    simp only [retraceRemoveLoop, hn, hbf, hpar, hp]
    rw [if_neg (by norm_num)]
    simp only [hn, hbf, hpar, hp]
    rw [if_pos (by norm_num), if_neg (by norm_num), if_neg (by omega), if_pos (by omega),
        if_pos (by omega)]
  · intro _ hvl
    simp only [retraceRemoveLoop, hn, hbf, hpar, hp]
    rw [if_neg (by norm_num)]
    simp only [hn, hbf, hpar, hp]
    rw [if_pos (by norm_num), if_neg (by norm_num), if_pos (by omega), if_pos (by omega)]

/-- Witness for the amended claim C3 at the concrete state `c3mid`:
node 1 (balance factor 0, left child of node 0 by key order) makes the
loop continue at node 0 with its balance factor incremented. -/
theorem C3_retrace_adjust_step_witness :
    retraceRemoveLoop 6 c3mid 1 =
      retraceRemoveLoop 5 (setN c3mid 0 { c3root with bf := c3root.bf + 1 }) 0 :=
  (C3_retrace_adjust_step 5 c3mid 1 0 _ c3root rfl rfl rfl rfl (by decide) (by decide)).1
    rfl (by decide)

/-- Claim C4: the spec asserts that a fresh `Inorder()` iterator yields
the distinct stored keys in ascending order and ends after exactly
`Size()` elements without mutating the tree.  The run `c4seq` builds a
valid 7-node AVL tree of actual height 4, but `getHeight` estimates the
stack size from `size` alone as 3, so the very first iterator call
writes past the stack and panics (index out of range) instead of
yielding the seven keys. -/
theorem C4_inorder_panics :
    (runOps c4seq).isOk = true ∧
    Size c4tree = 7 ∧
    strictAsc (keysBT (viewOf c4tree)) = true ∧
    bfMatches (viewOf c4tree) = true ∧
    parentChildClaim c4tree true (viewOf c4tree) = true ∧
    heightBT (viewOf c4tree) = 4 ∧
    inorderRun c4tree 10 = .error .indexRange := by decide

/-- Claim C5: the spec asserts that no internal assert can fire under
valid public-API call sequences.  The run `c5seq` refutes this: after
the `removeComplex` deletion of 20 leaves node 27 with a stale parent
pointer, deleting 27 reaches `replaceNode` with a parent whose child
slots do not hold the node, and the assert aborts via `log.Fatal`. -/
theorem C5_assert_fires :
    (runOps (c5seq.take 9)).isOk = true ∧
    runOps c5seq = .error (.fatal "unhandled parent/child case") := by decide

/-- Claim C6: the spec asserts `Delete(k)` returns true exactly when `k`
is present.  After the run `c6seq`, key 2 is present (`Search` returns
it), yet `Delete 2` dereferences a nil pointer inside `removeComplex`
(the left child of the node is nil on that path) instead of returning
true. -/
theorem C6_delete_crashes_on_present_key :
    (runOps c6seq).isOk = true ∧
    Search c6tree 2 = .ok (some 2) ∧
    Delete c6tree 2 = .error .nilDeref := by decide

/-- Claim C7: the spec asserts the insert-then-search round trip.  After
the run `c7seq`, inserting 26 attaches below node 27, and the insert
retrace climbs through the stale parent pointer of 27 into node 25, whose
child slots do not hold 27: the assert in `updateBalanceFactorInsert`
aborts the program, so the subsequent search can never return 26. -/
theorem C7_roundtrip_crashes :
    (runOps c7seq).isOk = true ∧
    Insert c7tree 26 = .error (.fatal "unhandled parent/child relationship") := by decide

/-- Claim C8: inserting a key that is already present (with its count
below the `uint8` maximum) only increments the count of that node: the arena
is unchanged except for that one count field, and the root pointer and
size are untouched.  Stated for any state whose reachable view is a
well-formed binary search tree containing the key. -/
theorem C8_insert_existing_frame (t : avlTree) (k : Int) (bt : BT)
    (hview : toBT t (t.heap.length + 1) t.root = some bt)
    (hbst : bstOkBT bt = true)
    (hmem : memBT k bt = true)
    (hcnt : countOkBT k bt = true)
    (hsz : t.size < MaxUint64) :
    ∃ id nd, getN t id = some nd ∧ nd.value = k ∧
      Insert t k = .ok (setN t id { nd with count := nd.count + 1 }) ∧
      (setN t id { nd with count := nd.count + 1 }).root = t.root ∧
      Size (setN t id { nd with count := nd.count + 1 }) = Size t := by
  cases hroot : t.root with
  | none =>
    rw [hroot] at hview
    cases hl : t.heap.length + 1 with
    | zero => simp at hl
    | succ m =>
      rw [hl] at hview
      simp only [toBT, Option.some.injEq] at hview
      subst hview
      simp [memBT] at hmem
  | some r =>
    rw [hroot] at hview
    obtain ⟨id, nd, hloop, hgid, hvid, hhas⟩ :=
      searchLoop_finds t k (t.heap.length + 1) r bt hview hbst hmem
    have hcount : nd.count < MaxUint8 := countOk_hasNode k id nd.count bt hcnt hhas
    refine ⟨id, nd, hgid, hvid, ?_, ?_, rfl⟩
    · simp only [Insert]
      rw [if_pos hsz]
      simp only [hroot, searchForClosest, hloop, hgid]
      rw [if_pos hvid.symm, if_pos hcount]
    · rw [← hroot]
      rfl

/-- Witness for claim C8: on the tree built by inserting 2, 1, 3, the
repeated insert of key 1 bumps only the count of that node. -/
theorem C8_insert_existing_frame_witness :
    ∃ id nd, getN c8t id = some nd ∧ nd.value = 1 ∧
      Insert c8t 1 = .ok (setN c8t id { nd with count := nd.count + 1 }) ∧
      (setN c8t id { nd with count := nd.count + 1 }).root = c8t.root ∧
      Size (setN c8t id { nd with count := nd.count + 1 }) = Size c8t :=
  C8_insert_existing_frame c8t 1 c8bt (by decide) (by decide) (by decide) (by decide)
    (by decide)

/-- Claim C9: the spec asserts the AVL height bound
`height <= 1.44 * log2(N+1)` for any tree built by inserting `N`
distinct keys in any order.  The 18 inserts of `c9seq` refute it: the
`left_right` rotation installs the balance-factor table of `right_left`
without mirroring the roles of X and Z, later rebalances are skipped,
and the resulting tree has actual height 8.  The final inequality
`19 ^ 144 < 2 ^ 700` is equivalent to `1.44 * log2 19 < 7`, so even the
edge-counting height 7 exceeds the bound, and the node-counting height 8
does as well. -/
theorem C9_height_bound_violated :
    (runOps c9seq).isOk = true ∧
    Size c9tree = 18 ∧
    heightBT (viewOf c9tree) = 8 ∧
    strictAsc (keysBT (viewOf c9tree)) = true ∧
    (Size c9tree + 1) ^ 144 < 2 ^ (100 * (heightBT (viewOf c9tree) - 1)) := by decide

/-- Claim C10: for the empty tree, the iterator returned by `Inorder()`
signals end-of-tree on its first and on every subsequent call without
panicking, even though its stack is allocated with length zero. -/
theorem C10_empty_tree_iterator (k : Nat) :
    Inorder New = .ok { pile := [], top := 0, cur := none } ∧
    iterCalls New k { pile := [], top := 0, cur := none } = .ok (List.replicate k none) := by
  constructor
  · rfl
  · induction k with
    | zero => rfl
    | succ k ih =>
      have hstep : inorderNext New { pile := [], top := 0, cur := none } =
          .ok ((none : Option Int), { pile := [], top := 0, cur := none }) := rfl
      simp only [iterCalls, hstep, ih, List.replicate_succ]

end AvlTree
